import Mathlib

/-!
# Verification of the bloomfilter_lock lock-record and scheduler

Shallow embedding of `src/bloomfilter_lock_impl.hpp` (namespace
`bloomfilter_lock`).  The companion header `bloomfilter_lock.hpp` is not part
of the sources, so the entities it defines (`BloomSet`, `LockIntention`, the
fields of `_LockRecord`, `clear`, `release`, `activate`,
`global_read_request`, `global_write_request`, and the queue manipulation done
by the `wait_at_queue_*` helpers) are modelled from the specification; each
such definition carries a doc comment starting with `Modelled from the spec:`.
Everything else is translated directly from `bloomfilter_lock_impl.hpp`.

Mutating C++ member functions become pure functions returning the new value
(paired with the C++ return value when there is one).
-/

/-- Resource keys (`bloomfilter_lock::Key`, an opaque integer; `0` is the
reserved "no resource" value). -/
abbrev Key := Nat

/-- Modelled from the spec: `BloomSet` is an approximate set of resource keys
supporting `add` (with `add(0)` a no-op), bitwise-OR union and an
intersection test with no false negatives.  The concrete 256-bit bitmap and
hash mixer live in the missing header; the embedding uses the exact key set,
which is an admissible instance of the spec (no false negatives, and the
spec's scenarios assume the chosen keys do not collide). -/
abbrev BloomSet := Finset Nat

/-- Modelled from the spec: `BloomSet::add`; adding key `0` must be a no-op. -/
def BloomSet.add (s : BloomSet) (k : Key) : BloomSet :=
  if k = 0 then s else insert k s

/-- Modelled from the spec: `BloomSet::union_with`, bitwise OR of bitmaps. -/
def BloomSet.union_with (s t : BloomSet) : BloomSet := s ∪ t

/-- Modelled from the spec: `BloomSet::intersects`, true iff a common bit is
set. -/
def BloomSet.intersects (s t : BloomSet) : Bool := decide ((s ∩ t).Nonempty)

/-- Modelled from the spec: `LockIntention` holds the read and write
`BloomSet`s and the exact count `min_writes` of (non-zero) writes merged so
far. -/
structure LockIntention where
  m_reads : BloomSet
  m_writes : BloomSet
  m_min_writes : Nat
deriving DecidableEq

/-- Modelled from the spec: the `LockIntention` constructor from two key
iterables: each read is inserted into `reads`, each write into both `reads`
and `writes` (a writer is also a reader), and `min_writes` is incremented for
each non-zero write. -/
def LockIntention.ofKeys (reads writes : List Key) : LockIntention :=
  { m_reads := writes.foldl BloomSet.add (reads.foldl BloomSet.add ∅)
    m_writes := writes.foldl BloomSet.add ∅
    m_min_writes := writes.countP (fun k => k != 0) }

/-- Modelled from the spec: `LockIntention::merge` succeeds iff
`self.writes ∩ other.reads = ∅ ∧ self.writes ∩ other.writes = ∅ ∧
self.reads ∩ other.writes = ∅`; on success it OR-unions both sets and adds
the `min_writes`; the test is applied before mutating, so on failure the
intention is unchanged.  Returns (C++ return value, updated intention). -/
def LockIntention.merge (self other : LockIntention) : Bool × LockIntention :=
  if self.m_writes.intersects other.m_reads
      || self.m_writes.intersects other.m_writes
      || self.m_reads.intersects other.m_writes then
    (false, self)
  else
    (true,
      { m_reads := self.m_reads.union_with other.m_reads
        m_writes := self.m_writes.union_with other.m_writes
        m_min_writes := self.m_min_writes + other.m_min_writes })

/-- The admission classification of a lock record
(`_LockRecord::RecordType`). -/
inductive RecordType where
  | None
  | ReadOnly
  | ReadWrite
  | Exclusive
  | Global
deriving DecidableEq

/-- Modelled from the spec: the fields of `_LockRecord` — classification,
merged-request count, accumulated intention, activation latch flag and the
completion counter `pending`.  (The latch condition variable and mutex have
no state beyond the `active` flag in a sequential embedding.) -/
structure _LockRecord where
  m_record_type : RecordType
  m_num_requests : Nat
  m_lock_intention : LockIntention
  m_active : Bool
  m_pending : Nat
deriving DecidableEq

/-- A freshly constructed `_LockRecord` (all fields zeroed, type `None`). -/
def freshRecord : _LockRecord :=
  { m_record_type := RecordType.None
    m_num_requests := 0
    m_lock_intention := { m_reads := ∅, m_writes := ∅, m_min_writes := 0 }
    m_active := false
    m_pending := 0 }

/-- `_LockRecord::merge_lock_request` (bloomfilter_lock_impl.hpp lines
12–39), translated line by line: `ReadOnly` accepts iff the incoming
`min_writes` is zero (without any mutation); `None` adopts the intention and
becomes `ReadWrite`; `Exclusive` rejects; incoming `min_writes > 8` rejects;
otherwise the intention merge is attempted, and on success `num_requests` is
incremented and the record promoted to `Exclusive` once `num_requests > 8`.
Returns (C++ return value, updated record). -/
def _LockRecord.merge_lock_request (r : _LockRecord) (l : LockIntention) :
    Bool × _LockRecord :=
  if r.m_record_type = RecordType.ReadOnly then
    (l.m_min_writes == 0, r)
  else if r.m_record_type = RecordType.None then
    (true,
      { r with
        m_record_type := RecordType.ReadWrite
        m_num_requests := 1
        m_lock_intention := l })
  else if r.m_record_type = RecordType.Exclusive then
    (false, r)
  else if l.m_min_writes > 8 then
    (false, r)
  else
    match r.m_lock_intention.merge l with
    | (false, _) => (false, r)
    | (true, li) =>
      let n := r.m_num_requests + 1
      (true,
        { r with
          m_num_requests := n
          m_lock_intention := li
          m_record_type :=
            if n > 8 then RecordType.Exclusive else r.m_record_type })

/-- `_LockRecord::merge_read_lock_request` (impl lines 42–45): a read lock on
`id` is the intention `LockIntention({id}, {Key(0)})`. -/
def _LockRecord.merge_read_lock_request (r : _LockRecord) (id : Key) :
    Bool × _LockRecord :=
  r.merge_lock_request (LockIntention.ofKeys [id] [0])

/-- `_LockRecord::merge_write_lock_request` (impl lines 48–51): a write lock
on `id` is the intention `LockIntention({id}, {id})`. -/
def _LockRecord.merge_write_lock_request (r : _LockRecord) (id : Key) :
    Bool × _LockRecord :=
  r.merge_lock_request (LockIntention.ofKeys [id] [id])

/-- Modelled from the spec: `global_read_request` accepts iff the record type
is `None` or `ReadOnly`; on adoption from `None` it sets `ReadOnly` (the
read-saturating classification) and counts the request. -/
def _LockRecord.global_read_request (r : _LockRecord) : Bool × _LockRecord :=
  match r.m_record_type with
  | RecordType.None =>
    (true, { r with m_record_type := RecordType.ReadOnly, m_num_requests := 1 })
  | RecordType.ReadOnly =>
    (true, { r with m_num_requests := r.m_num_requests + 1 })
  | _ => (false, r)

/-- Modelled from the spec: `global_write_request` accepts iff the record
type is `None` and transitions it to `Global` (with `num_requests = 1`, per
the `Global ⇒ num_requests = 1` invariant). -/
def _LockRecord.global_write_request (r : _LockRecord) : Bool × _LockRecord :=
  match r.m_record_type with
  | RecordType.None =>
    (true, { r with m_record_type := RecordType.Global, m_num_requests := 1 })
  | _ => (false, r)

/-- Modelled from the spec: `clear` resets `record_type = None`,
`num_requests = 0`, zeroes the Bloom sets and resets the latch; the result is
a fresh record. -/
def _LockRecord.clear (_ : _LockRecord) : _LockRecord := freshRecord

/-- Modelled from the spec: `activate` raises the latch; `pending` equals
`num_requests` when activated. -/
def _LockRecord.activate (r : _LockRecord) : _LockRecord :=
  { r with m_active := true, m_pending := r.m_num_requests }

/-- Modelled from the spec: `release` atomically decrements `pending` and
returns true iff it reached zero. -/
def _LockRecord.release (r : _LockRecord) : Bool × _LockRecord :=
  let p := r.m_pending - 1
  (p == 0, { r with m_pending := p })

/-- Field accessor `_LockRecord::record_type()`. -/
def _LockRecord.record_type (r : _LockRecord) : RecordType := r.m_record_type

/-!
## The scheduler (`BloomFilterLock<T>`)

Scheduler state: the FIFO lock queue (front = list head, push at the back),
the record pool (a stack; the C++ `std::vector` pushes and pops at the back,
modelled here with the list head as the stack top, which is isomorphic), and
the active record.  The spin-lock `m_mutex` and `m_closing` have no content
in a sequential embedding.  Blocking (`wait_at_queue_front`,
`wait_at_queue_back`) is a thread-side effect; its scheduler-state effect —
pushing the freshly populated record at the back of the queue — is modelled
from the spec (acquire algorithm step 5).
-/

structure BFLState where
  m_lock_queue : List _LockRecord
  m_record_pool : List _LockRecord
  m_active_lock_record : Option _LockRecord
deriving DecidableEq

/-- `BloomFilterLock` constructor (impl lines 54–63): seed the pool with 7
fresh records and the queue with one fresh sentinel. -/
def BFLState.init : BFLState :=
  { m_lock_queue := [freshRecord]
    m_record_pool := List.replicate 7 freshRecord
    m_active_lock_record := none }

/-- `BloomFilterLock::allocate_lock_record` (impl lines 100–115): pop a
record from the pool if it is non-empty, otherwise heap-allocate a fresh
one.  Returns (the record, updated state). -/
def BFLState.allocate_lock_record (s : BFLState) : _LockRecord × BFLState :=
  match s.m_record_pool with
  | r :: rest => (r, { s with m_record_pool := rest })
  | [] => (freshRecord, s)

/-- Push a record at the back of the lock queue — the scheduler-state effect
of `wait_at_queue_back(lock, r)`.  Modelled from the spec: acquire step 5
"push it to the back of the queue". -/
def BFLState.push_back (s : BFLState) (r : _LockRecord) : BFLState :=
  { s with m_lock_queue := s.m_lock_queue ++ [r] }

/-- Replace the front of the lock queue (the sentinel whose merge method was
invoked through the `m_lock_queue.front()` pointer). -/
def BFLState.set_front (s : BFLState) (r : _LockRecord) : BFLState :=
  match s.m_lock_queue with
  | [] => s
  | _ :: rest => { s with m_lock_queue := r :: rest }

/-- Replace the back of the lock queue (the record reached through the
`m_lock_queue.back()` pointer). -/
def BFLState.set_back (s : BFLState) (r : _LockRecord) : BFLState :=
  { s with m_lock_queue := s.m_lock_queue.dropLast ++ [r] }

/-- `BloomFilterLock::multilock(const LockIntention&)` (impl lines 172–186):
attempt the merge on the queue front; on failure allocate a record, apply the
same merge to it (result ignored in the C++) and push it at the back. -/
def BFLState.multilock (s : BFLState) (l : LockIntention) : BFLState :=
  match s.m_lock_queue with
  | [] => s
  | front :: rest =>
    match front.merge_lock_request l with
    | (true, front2) => { s with m_lock_queue := front2 :: rest }
    | (false, front2) =>
      let s1 : BFLState := { s with m_lock_queue := front2 :: rest }
      let (r, s2) := s1.allocate_lock_record
      s2.push_back (r.merge_lock_request l).2

/-- `BloomFilterLock::read_lock` (impl lines 189–204). -/
def BFLState.read_lock (s : BFLState) (resource_id : Key) : BFLState :=
  match s.m_lock_queue with
  | [] => s
  | front :: rest =>
    match front.merge_read_lock_request resource_id with
    | (true, front2) => { s with m_lock_queue := front2 :: rest }
    | (false, front2) =>
      let s1 : BFLState := { s with m_lock_queue := front2 :: rest }
      let (r, s2) := s1.allocate_lock_record
      s2.push_back (r.merge_read_lock_request resource_id).2

/-- `BloomFilterLock::write_lock` (impl lines 207–221). -/
def BFLState.write_lock (s : BFLState) (resource_id : Key) : BFLState :=
  match s.m_lock_queue with
  | [] => s
  | front :: rest =>
    match front.merge_write_lock_request resource_id with
    | (true, front2) => { s with m_lock_queue := front2 :: rest }
    | (false, front2) =>
      let s1 : BFLState := { s with m_lock_queue := front2 :: rest }
      let (r, s2) := s1.allocate_lock_record
      s2.push_back (r.merge_write_lock_request resource_id).2

/-- `BloomFilterLock::global_read_lock` (impl lines 118–143): try the front;
if the queue has more than one element try the back; otherwise allocate a
record and push it at the back (the C++ applies no request to it before
`wait_at_queue_back(lock, r)`). -/
def BFLState.global_read_lock (s : BFLState) : BFLState :=
  match s.m_lock_queue with
  | [] => s
  | front :: rest =>
    match front.global_read_request with
    | (true, front2) => { s with m_lock_queue := front2 :: rest }
    | (false, front2) =>
      let s1 : BFLState := { s with m_lock_queue := front2 :: rest }
      if s1.m_lock_queue.length > 1 then
        match s1.m_lock_queue.getLast?.elim (false, freshRecord)
            _LockRecord.global_read_request with
        | (true, back2) => s1.set_back back2
        | (false, back2) =>
          let s2 := s1.set_back back2
          let (r, s3) := s2.allocate_lock_record
          s3.push_back r
      else
        let (r, s3) := s1.allocate_lock_record
        s3.push_back r

/-- `BloomFilterLock::global_write_lock` (impl lines 146–161): try the front;
on failure allocate a record, apply `global_write_request` to it (result
ignored) and push it at the back. -/
def BFLState.global_write_lock (s : BFLState) : BFLState :=
  match s.m_lock_queue with
  | [] => s
  | front :: rest =>
    match front.global_write_request with
    | (true, front2) => { s with m_lock_queue := front2 :: rest }
    | (false, front2) =>
      let s1 : BFLState := { s with m_lock_queue := front2 :: rest }
      let (r, s2) := s1.allocate_lock_record
      s2.push_back (r.global_write_request).2

/-- `BloomFilterLock::unlock` (impl lines 224–255): read the active record,
`release()` it; the draining thread (`release` returned true) clears the
record, nulls the active pointer, and if the queue front is a non-`None`
record pops it, makes it active and activates it; the drained record is
pushed back as the queue's sentinel if the queue is then empty, otherwise
returned to the pool. -/
def BFLState.unlock (s : BFLState) : BFLState :=
  match s.m_active_lock_record with
  | none => s
  | some released_lock_record =>
    match released_lock_record.release with
    | (true, r1) =>
      let released := r1.clear
      let s1 : BFLState := { s with m_active_lock_record := none }
      let s2 : BFLState :=
        match s1.m_lock_queue with
        | [] => s1
        | front :: rest =>
          if front.record_type ≠ RecordType.None then
            { s1 with
              m_lock_queue := rest
              m_active_lock_record := some front.activate }
          else s1
      if s2.m_lock_queue.isEmpty then
        { s2 with m_lock_queue := [released] }
      else
        { s2 with m_record_pool := released :: s2.m_record_pool }
    | (false, r1) => { s with m_active_lock_record := some r1 }

/-- The conserved quantity of spec invariant 5: pool size + queue size +
(1 if a record is active). -/
def BFLState.footprint (s : BFLState) : Nat :=
  s.m_record_pool.length + s.m_lock_queue.length +
    (if s.m_active_lock_record.isSome then 1 else 0)

/-!
## Concrete records used by witnesses and counterexamples
-/

/-- A record that has classified itself `ReadOnly` (reached from `None` by
`global_read_request` followed by two more global reads). -/
def roRecord : _LockRecord :=
  { freshRecord with
    m_record_type := RecordType.ReadOnly
    m_num_requests := 3 }

/-- A saturated record (promoted to `Exclusive` after nine merges). -/
def exRecord : _LockRecord :=
  { freshRecord with
    m_record_type := RecordType.Exclusive
    m_num_requests := 9 }

/-!
## Claims about `merge_lock_request` alone
-/

/-- C10: on a `ReadOnly` record, `merge_lock_request` leaves every field of
the record unchanged whether it accepts or rejects: `num_requests` is not
incremented and the incoming read set is never unioned in. -/
theorem readonly_record_unchanged_by_merge (r : _LockRecord)
    (l : LockIntention) (h : r.m_record_type = RecordType.ReadOnly) :
    (r.merge_lock_request l).2 = r := by
  simp [_LockRecord.merge_lock_request, h]

theorem readonly_record_unchanged_by_merge_witness :
    (roRecord.merge_lock_request (LockIntention.ofKeys [1] [])).2 = roRecord :=
  readonly_record_unchanged_by_merge roRecord (LockIntention.ofKeys [1] [])
    (by decide)

/-- C1: evaluation of the code at the failing input.  A `ReadOnly` record
with `num_requests = 3` accepts a pure-read intention (`min_writes = 0`) but
leaves `num_requests` at 3 instead of incrementing it to 4 as the
specification requires for the pending-counter handoff. -/
theorem readonly_merge_accepts_without_counting :
    (LockIntention.ofKeys [1] []).m_min_writes = 0 ∧
    (roRecord.merge_lock_request (LockIntention.ofKeys [1] [])).1 = true ∧
    (roRecord.merge_lock_request (LockIntention.ofKeys [1] [])).2.m_num_requests
      = 3 := by
  refine ⟨rfl, by decide, rfl⟩

/-- C2 counterexample: a fresh (`None`) record adopting a pure-read intention
(`min_writes = 0`) is classified `ReadWrite`, not `ReadOnly` as the claim
states. -/
theorem none_adoption_not_readonly_counterexample :
    (LockIntention.ofKeys [1] []).m_min_writes = 0 ∧
    (freshRecord.merge_lock_request (LockIntention.ofKeys [1] [])).2.m_record_type
      ≠ RecordType.ReadOnly := by
  exact ⟨rfl, by decide⟩

/-- C2 amended: on a `None` record, `merge_lock_request` adopts the incoming
intention, sets `num_requests` to 1 and returns true, and sets `record_type`
to `ReadWrite` regardless of the intention's `min_writes` (the `ReadOnly`
classification is only ever applied by `global_read_request`). -/
theorem none_adoption_sets_readwrite (r : _LockRecord) (l : LockIntention)
    (h : r.m_record_type = RecordType.None) :
    r.merge_lock_request l =
      (true,
        { r with
          m_record_type := RecordType.ReadWrite
          m_num_requests := 1
          m_lock_intention := l }) := by
  simp [_LockRecord.merge_lock_request, h]

theorem none_adoption_sets_readwrite_witness :
    freshRecord.merge_lock_request (LockIntention.ofKeys [1] []) =
      (true,
        { freshRecord with
          m_record_type := RecordType.ReadWrite
          m_num_requests := 1
          m_lock_intention := LockIntention.ofKeys [1] [] }) :=
  none_adoption_sets_readwrite freshRecord (LockIntention.ofKeys [1] [])
    (by decide)

/-- C9: `merge_lock_request` on a record whose type is `None` returns true
for every intention, so the ignored boolean result of the merge applied to a
freshly allocated record on the fallback paths of `multilock`, `read_lock`
and `write_lock` can never be false. -/
theorem merge_into_none_record_always_accepts (r : _LockRecord)
    (l : LockIntention) (h : r.m_record_type = RecordType.None) :
    (r.merge_lock_request l).1 = true := by
  simp [_LockRecord.merge_lock_request, h]

theorem merge_into_none_record_always_accepts_witness :
    (freshRecord.merge_lock_request (LockIntention.ofKeys [1] [2])).1 = true :=
  merge_into_none_record_always_accepts freshRecord
    (LockIntention.ofKeys [1] [2]) (by decide)

/-- C4: whenever `merge_lock_request` returns false the record is unchanged —
`record_type`, `num_requests` and the whole intention (both Bloom sets and
`min_writes`) keep their previous values. -/
theorem merge_lock_request_failure_frame (r : _LockRecord)
    (l : LockIntention) (h : (r.merge_lock_request l).1 = false) :
    (r.merge_lock_request l).2 = r := by
  unfold _LockRecord.merge_lock_request at h ⊢
  rcases hml : r.m_lock_intention.merge l with ⟨b, li⟩
  cases b <;> split_ifs at h ⊢ <;> simp_all

theorem merge_lock_request_failure_frame_witness :
    ((exRecord.merge_lock_request (LockIntention.ofKeys [1] [1])).1 = false) ∧
    (exRecord.merge_lock_request (LockIntention.ofKeys [1] [1])).2 = exRecord :=
  ⟨by decide,
    merge_lock_request_failure_frame exRecord (LockIntention.ofKeys [1] [1])
      (by decide)⟩

/-- C7: for a non-zero key `a`, `read_lock(a)` and `multilock({a}, {})` build
the very same `LockIntention` — the degenerate write set `{0}` adds nothing
because `BloomSet::add(0)` is a no-op and `0` is not counted by
`min_writes` — and therefore drive the scheduler through identical
transitions. -/
theorem read_lock_equals_multilock_single_read (a : Key) (s : BFLState)
    (h : a ≠ 0) :
    LockIntention.ofKeys [a] [0] = LockIntention.ofKeys [a] [] ∧
    s.read_lock a = s.multilock (LockIntention.ofKeys [a] []) := by
  refine ⟨rfl, ?_⟩
  unfold BFLState.read_lock BFLState.multilock
    _LockRecord.merge_read_lock_request
  rfl

theorem read_lock_equals_multilock_single_read_witness :
    LockIntention.ofKeys [5] [0] = LockIntention.ofKeys [5] [] ∧
    BFLState.init.read_lock 5 =
      BFLState.init.multilock (LockIntention.ofKeys [5] []) :=
  read_lock_equals_multilock_single_read 5 BFLState.init (by decide)

/-!
## C5: evolution of pool size + queue size + active count
-/

theorem multilock_footprint_law (s : BFLState) (l : LockIntention) :
    (s.multilock l).footprint = s.footprint ∨
      (s.m_record_pool = [] ∧ (s.multilock l).footprint = s.footprint + 1) := by
  rcases s with ⟨q, pool, act⟩
  unfold BFLState.multilock
  rcases q with _ | ⟨front, rest⟩
  · left; rfl
  · rcases hm : front.merge_lock_request l with ⟨b, front2⟩
    cases b
    · rcases pool with _ | ⟨p, ps⟩
      · right
        refine ⟨rfl, ?_⟩
        simp [hm, BFLState.allocate_lock_record, BFLState.push_back,
          BFLState.footprint] <;> try omega
      · left
        simp [hm, BFLState.allocate_lock_record, BFLState.push_back,
          BFLState.footprint] <;> try omega
    · left
      simp [hm, BFLState.footprint] <;> try omega

theorem read_lock_footprint_law (s : BFLState) (k : Key) :
    (s.read_lock k).footprint = s.footprint ∨
      (s.m_record_pool = [] ∧ (s.read_lock k).footprint = s.footprint + 1) := by
  rcases s with ⟨q, pool, act⟩
  unfold BFLState.read_lock
  rcases q with _ | ⟨front, rest⟩
  · left; rfl
  · rcases hm : front.merge_read_lock_request k with ⟨b, front2⟩
    cases b
    · rcases pool with _ | ⟨p, ps⟩
      · right
        refine ⟨rfl, ?_⟩
        simp [hm, BFLState.allocate_lock_record, BFLState.push_back,
          BFLState.footprint] <;> try omega
      · left
        simp [hm, BFLState.allocate_lock_record, BFLState.push_back,
          BFLState.footprint] <;> try omega
    · left
      simp [hm, BFLState.footprint] <;> try omega

theorem write_lock_footprint_law (s : BFLState) (k : Key) :
    (s.write_lock k).footprint = s.footprint ∨
      (s.m_record_pool = [] ∧ (s.write_lock k).footprint = s.footprint + 1) := by
  rcases s with ⟨q, pool, act⟩
  unfold BFLState.write_lock
  rcases q with _ | ⟨front, rest⟩
  · left; rfl
  · rcases hm : front.merge_write_lock_request k with ⟨b, front2⟩
    cases b
    · rcases pool with _ | ⟨p, ps⟩
      · right
        refine ⟨rfl, ?_⟩
        simp [hm, BFLState.allocate_lock_record, BFLState.push_back,
          BFLState.footprint] <;> try omega
      · left
        simp [hm, BFLState.allocate_lock_record, BFLState.push_back,
          BFLState.footprint] <;> try omega
    · left
      simp [hm, BFLState.footprint] <;> try omega

theorem global_write_lock_footprint_law (s : BFLState) :
    s.global_write_lock.footprint = s.footprint ∨
      (s.m_record_pool = [] ∧
        s.global_write_lock.footprint = s.footprint + 1) := by
  rcases s with ⟨q, pool, act⟩
  unfold BFLState.global_write_lock
  rcases q with _ | ⟨front, rest⟩
  · left; rfl
  · rcases hm : front.global_write_request with ⟨b, front2⟩
    cases b
    · rcases pool with _ | ⟨p, ps⟩
      · right
        refine ⟨rfl, ?_⟩
        simp [hm, BFLState.allocate_lock_record, BFLState.push_back,
          BFLState.footprint] <;> try omega
      · left
        simp [hm, BFLState.allocate_lock_record, BFLState.push_back,
          BFLState.footprint] <;> try omega
    · left
      simp [hm, BFLState.footprint] <;> try omega

theorem global_read_lock_footprint_law (s : BFLState) :
    s.global_read_lock.footprint = s.footprint ∨
      (s.m_record_pool = [] ∧
        s.global_read_lock.footprint = s.footprint + 1) := by
  rcases s with ⟨q, pool, act⟩
  unfold BFLState.global_read_lock
  rcases q with _ | ⟨front, rest⟩
  · left; rfl
  · rcases hm : front.global_read_request with ⟨b, front2⟩
    cases b
    · rcases rest with _ | ⟨r2, rs⟩
      · rcases pool with _ | ⟨p, ps⟩
        · right
          refine ⟨rfl, ?_⟩
          simp [hm, BFLState.allocate_lock_record, BFLState.push_back,
            BFLState.footprint] <;> try omega
        · left
          simp [hm, BFLState.allocate_lock_record, BFLState.push_back,
            BFLState.footprint] <;> try omega
      · rcases hg : ((r2 :: rs).getLast?.elim (false, freshRecord)
            _LockRecord.global_read_request) with ⟨gb, back2⟩
        cases gb
        · rcases pool with _ | ⟨p, ps⟩
          · right
            refine ⟨rfl, ?_⟩
            simp [hm, hg, BFLState.set_back, BFLState.allocate_lock_record,
              BFLState.push_back, BFLState.footprint] <;> try omega
          · left
            simp [hm, hg, BFLState.set_back, BFLState.allocate_lock_record,
              BFLState.push_back, BFLState.footprint] <;> try omega
        · left
          simp [hm, hg, BFLState.set_back, BFLState.footprint] <;> try omega
    · left
      simp [hm, BFLState.footprint] <;> try omega

theorem unlock_footprint_law (s : BFLState) :
    s.unlock.footprint = s.footprint := by
  rcases s with ⟨q, pool, act⟩
  unfold BFLState.unlock
  rcases act with _ | ⟨r⟩
  · rfl
  · rcases hr : r.release with ⟨b, r1⟩
    cases b
    · simp [hr, BFLState.footprint] <;> try omega
    · rcases q with _ | ⟨front, rest⟩
      · simp [hr, BFLState.footprint] <;> try omega
      · by_cases hf : front.record_type ≠ RecordType.None
        · rcases rest with _ | ⟨r2, rs⟩ <;>
            simp [hr, hf, BFLState.footprint] <;> try omega
        · rcases rest with _ | ⟨r2, rs⟩ <;>
            simp [hr, hf, BFLState.footprint] <;> try omega

/-- C5 counterexample: nine conflicting `write_lock(1)` acquisitions with no
intervening unlock drive the pool empty and force `allocate_lock_record` to
heap-allocate, so the conserved quantity grows from the constructor's 8
to 9. -/
theorem footprint_not_constant_counterexample :
    BFLState.init.footprint = 8 ∧
    ((fun s : BFLState => s.write_lock 1)^[9] BFLState.init).footprint = 9 := by
  constructor
  · rfl
  · decide

/-- C5 amended: pool size + queue size + (1 if a record is active) is
preserved by every public operation, except that an acquisition which finds
the record pool empty — and therefore heap-allocates a fresh record — can
increase it by exactly one; in particular the quantity never decreases, and
it stays at its construction value 8 as long as the pool is never exhausted.
`unlock` always preserves it. -/
theorem footprint_evolution (s : BFLState) (l : LockIntention) (k : Key) :
    ((s.multilock l).footprint = s.footprint ∨
      (s.m_record_pool = [] ∧ (s.multilock l).footprint = s.footprint + 1)) ∧
    ((s.read_lock k).footprint = s.footprint ∨
      (s.m_record_pool = [] ∧ (s.read_lock k).footprint = s.footprint + 1)) ∧
    ((s.write_lock k).footprint = s.footprint ∨
      (s.m_record_pool = [] ∧ (s.write_lock k).footprint = s.footprint + 1)) ∧
    (s.global_read_lock.footprint = s.footprint ∨
      (s.m_record_pool = [] ∧
        s.global_read_lock.footprint = s.footprint + 1)) ∧
    (s.global_write_lock.footprint = s.footprint ∨
      (s.m_record_pool = [] ∧
        s.global_write_lock.footprint = s.footprint + 1)) ∧
    s.unlock.footprint = s.footprint :=
  ⟨multilock_footprint_law s l, read_lock_footprint_law s k,
    write_lock_footprint_law s k, global_read_lock_footprint_law s,
    global_write_lock_footprint_law s, unlock_footprint_law s⟩

/-!
## C3/C6: sequences of merge requests against a fresh record

`mergeSeq` applies `merge_lock_request` once per intention, as the scheduler
does when requests arrive at the sentinel one by one, collecting each boolean
result; `processAll` keeps only the final record.  `canonicalRecord`
describes the record obtained when every request in the sequence is
accepted.
-/

def mergeSeq (r : _LockRecord) : List LockIntention → List Bool × _LockRecord
  | [] => ([], r)
  | l :: ls =>
    let step := r.merge_lock_request l
    let rest := mergeSeq step.2 ls
    (step.1 :: rest.1, rest.2)

def processAll (r : _LockRecord) (ls : List LockIntention) : _LockRecord :=
  (mergeSeq r ls).2

/-- Two intentions pass the three-way intersection test of
`LockIntention::merge` in either order. -/
def Compatible (a b : LockIntention) : Prop :=
  a.m_writes ∩ b.m_reads = ∅ ∧ a.m_writes ∩ b.m_writes = ∅ ∧
    a.m_reads ∩ b.m_writes = ∅

instance (a b : LockIntention) : Decidable (Compatible a b) := by
  unfold Compatible; infer_instance

theorem Compatible.swap {a b : LockIntention} (h : Compatible a b) :
    Compatible b a := by
  obtain ⟨h1, h2, h3⟩ := h
  refine ⟨?_, ?_, ?_⟩
  · rw [Finset.inter_comm]; exact h3
  · rw [Finset.inter_comm]; exact h2
  · rw [Finset.inter_comm]; exact h1

def readsUnion (ls : List LockIntention) : BloomSet :=
  ((ls.map fun l => l.m_reads : List BloomSet) : Multiset BloomSet).sup

def writesUnion (ls : List LockIntention) : BloomSet :=
  ((ls.map fun l => l.m_writes : List BloomSet) : Multiset BloomSet).sup

def minSum (ls : List LockIntention) : Nat :=
  (ls.map fun l => l.m_min_writes).sum

/-- The record state after a non-empty sequence of intentions has been merged
into a fresh record with every request accepted: `ReadWrite` until the ninth
acceptance promotes it to `Exclusive`, `num_requests` counting the requests,
and the intention the pointwise union. -/
def canonicalRecord (ls : List LockIntention) : _LockRecord :=
  { m_record_type :=
      if 8 < ls.length then RecordType.Exclusive else RecordType.ReadWrite
    m_num_requests := ls.length
    m_lock_intention :=
      { m_reads := readsUnion ls
        m_writes := writesUnion ls
        m_min_writes := minSum ls }
    m_active := false
    m_pending := 0 }

theorem union_inter_empty {a b t : BloomSet} (ha : a ∩ t = ∅)
    (hb : b ∩ t = ∅) : (a ∪ b) ∩ t = ∅ := by
  rw [Finset.eq_empty_iff_forall_not_mem] at ha hb ⊢
  intro x hx
  rcases Finset.mem_inter.mp hx with ⟨hxu, hxt⟩
  rcases Finset.mem_union.mp hxu with h | h
  · exact ha x (Finset.mem_inter.mpr ⟨h, hxt⟩)
  · exact hb x (Finset.mem_inter.mpr ⟨h, hxt⟩)

theorem intersects_false {a b : BloomSet} (h : a ∩ b = ∅) :
    a.intersects b = false := by
  simp [BloomSet.intersects, h]

theorem supMap_inter_empty (f : LockIntention → BloomSet)
    (P : List LockIntention) (t : BloomSet) (h : ∀ p ∈ P, f p ∩ t = ∅) :
    ((P.map f : List BloomSet) : Multiset BloomSet).sup ∩ t = ∅ := by
  induction P with
  | nil => simp [Multiset.sup_zero, Finset.bot_eq_empty]
  | cons p ps ih =>
    have h1 := h p (List.mem_cons_self p ps)
    have h2 := ih fun q hq => h q (List.mem_cons_of_mem p hq)
    simp only [List.map_cons, ← Multiset.cons_coe, Multiset.sup_cons,
      Finset.sup_eq_union]
    exact union_inter_empty h1 h2

theorem readsUnion_append (P : List LockIntention) (x : LockIntention) :
    readsUnion (P ++ [x]) = readsUnion P ∪ x.m_reads := by
  simp [readsUnion, List.map_append, ← Multiset.coe_add, Multiset.sup_add,
    Multiset.coe_singleton, Multiset.sup_singleton, Finset.sup_eq_union]

theorem writesUnion_append (P : List LockIntention) (x : LockIntention) :
    writesUnion (P ++ [x]) = writesUnion P ∪ x.m_writes := by
  simp [writesUnion, List.map_append, ← Multiset.coe_add, Multiset.sup_add,
    Multiset.coe_singleton, Multiset.sup_singleton, Finset.sup_eq_union]

theorem minSum_append (P : List LockIntention) (x : LockIntention) :
    minSum (P ++ [x]) = minSum P + x.m_min_writes := by
  simp [minSum, List.map_append]

theorem canonicalRecord_singleton (x : LockIntention) :
    canonicalRecord [x] =
      { m_record_type := RecordType.ReadWrite
        m_num_requests := 1
        m_lock_intention := x
        m_active := false
        m_pending := 0 } := by
  rcases x with ⟨xr, xw, xm⟩
  simp [canonicalRecord, readsUnion, writesUnion, minSum,
    Multiset.coe_singleton, Multiset.sup_singleton]

theorem merge_canonical_succeeds (P : List LockIntention)
    (x : LockIntention) (h : ∀ p ∈ P, Compatible p x) :
    (canonicalRecord P).m_lock_intention.merge x =
      (true,
        { m_reads := readsUnion P ∪ x.m_reads
          m_writes := writesUnion P ∪ x.m_writes
          m_min_writes := minSum P + x.m_min_writes }) := by
  have hwr : writesUnion P ∩ x.m_reads = ∅ :=
    supMap_inter_empty (fun l => l.m_writes) P _ fun p hp => (h p hp).1
  have hww : writesUnion P ∩ x.m_writes = ∅ :=
    supMap_inter_empty (fun l => l.m_writes) P _ fun p hp => (h p hp).2.1
  have hrw : readsUnion P ∩ x.m_writes = ∅ :=
    supMap_inter_empty (fun l => l.m_reads) P _ fun p hp => (h p hp).2.2
  simp [LockIntention.merge, canonicalRecord, BloomSet.union_with,
    intersects_false hwr, intersects_false hww, intersects_false hrw]

theorem canonicalRecord_step (P : List LockIntention) (x : LockIntention)
    (hPlen : P.length ≤ 8) (hxmin : x.m_min_writes ≤ 8)
    (hcross : ∀ p ∈ P, Compatible p x) :
    (canonicalRecord P).merge_lock_request x =
      (true, canonicalRecord (P ++ [x])) := by
  have htype : (canonicalRecord P).m_record_type = RecordType.ReadWrite := by
    simp only [canonicalRecord]
    rw [if_neg (by omega)]
  have hmerge := merge_canonical_succeeds P x hcross
  unfold _LockRecord.merge_lock_request
  rw [htype]
  simp only [reduceCtorEq, if_false]
  rw [if_neg (by omega)]
  have hnum : (canonicalRecord P).m_num_requests = P.length := rfl
  rw [hmerge]
  simp only [canonicalRecord, readsUnion_append, writesUnion_append,
    minSum_append, List.length_append, List.length_singleton]

theorem mergeSeq_canonical (R : List LockIntention) :
    ∀ P : List LockIntention, P.length + R.length ≤ 9 →
      (∀ l ∈ R, l.m_min_writes ≤ 8) →
      (P ++ R).Pairwise Compatible →
      mergeSeq (canonicalRecord P) R =
        (List.replicate R.length true, canonicalRecord (P ++ R)) := by
  induction R with
  | nil =>
    intro P hlen hmin hcompat
    simp [mergeSeq]
  | cons x R' ih =>
    intro P hlen hmin hcompat
    have hcross : ∀ p ∈ P, Compatible p x := by
      have hc := (List.pairwise_append.mp hcompat).2.2
      intro p hp
      exact hc p hp x (List.mem_cons_self x R')
    have hPlen : P.length ≤ 8 := by
      simp only [List.length_cons] at hlen
      omega
    have hxmin : x.m_min_writes ≤ 8 := hmin x (List.mem_cons_self x R')
    have hstep := canonicalRecord_step P x hPlen hxmin hcross
    have hassoc : (P ++ [x]) ++ R' = P ++ (x :: R') := by simp
    have happly := ih (P ++ [x])
      (by simp only [List.length_append, List.length_singleton,
            List.length_cons, List.length_nil] at hlen ⊢; omega)
      (fun l hl => hmin l (List.mem_cons_of_mem x hl))
      (by rw [hassoc]; exact hcompat)
    rw [hassoc] at happly
    simp [mergeSeq, hstep, happly, List.replicate_succ]

theorem mergeSeq_fresh (L : List LockIntention) (hne : L ≠ [])
    (hlen : L.length ≤ 9) (hmin : ∀ l ∈ L, l.m_min_writes ≤ 8)
    (hcompat : L.Pairwise Compatible) :
    mergeSeq freshRecord L =
      (List.replicate L.length true, canonicalRecord L) := by
  rcases L with _ | ⟨x, L'⟩
  · exact absurd rfl hne
  · have hfirst : freshRecord.merge_lock_request x =
        (true, canonicalRecord [x]) := by
      rw [canonicalRecord_singleton]
      simp [_LockRecord.merge_lock_request, freshRecord]
    have happly := mergeSeq_canonical L' [x]
      (by simp only [List.length_singleton, List.length_cons,
            List.length_nil] at hlen ⊢; omega)
      (fun l hl => hmin l (List.mem_cons_of_mem x hl))
      (by simpa using hcompat)
    simp only [List.singleton_append] at happly
    simp [mergeSeq, hfirst, happly, List.replicate_succ]

theorem canonicalRecord_perm {L1 L2 : List LockIntention}
    (h : L1.Perm L2) : canonicalRecord L1 = canonicalRecord L2 := by
  have hlen := h.length_eq
  have hr : readsUnion L1 = readsUnion L2 :=
    congrArg Multiset.sup (Multiset.coe_eq_coe.mpr (h.map _))
  have hw : writesUnion L1 = writesUnion L2 :=
    congrArg Multiset.sup (Multiset.coe_eq_coe.mpr (h.map _))
  have hm : minSum L1 = minSum L2 := (h.map _).sum_eq
  simp [canonicalRecord, hlen, hr, hw, hm]

/-- The write-lock intention over a single key, as built by
`merge_write_lock_request`. -/
def writeIntent (k : Key) : LockIntention := LockIntention.ofKeys [k] [k]

theorem writeIntent_eval (k : Key) (hk : k ≠ 0) :
    writeIntent k =
      { m_reads := {k}, m_writes := {k}, m_min_writes := 1 } := by
  simp [writeIntent, LockIntention.ofKeys, BloomSet.add, hk,
    List.countP_cons, Finset.insert_idem]

theorem writeIntent_compat {a b : Key} (ha : a ≠ 0) (hb : b ≠ 0)
    (hab : a ≠ b) : Compatible (writeIntent a) (writeIntent b) := by
  rw [writeIntent_eval a ha, writeIntent_eval b hb]
  refine ⟨?_, ?_, ?_⟩ <;>
    exact Finset.singleton_inter_of_not_mem (by simp [hab])

/-- C6: when every intention of the sequence is accepted — pairwise
compatible intentions, each with `min_writes ≤ 8`, at most nine of them —
the record resulting from merging them one by one into a fresh (`None`)
record is the same for every permutation of the sequence. -/
theorem merge_outcome_permutation_invariant (L1 L2 : List LockIntention)
    (hperm : List.Perm L1 L2) (hcompat : L1.Pairwise Compatible)
    (hmin : ∀ l ∈ L1, l.m_min_writes ≤ 8) (hlen : L1.length ≤ 9) :
    processAll freshRecord L1 = processAll freshRecord L2 := by
  by_cases hne : L1 = []
  · subst hne
    have h2 : L2 = [] := hperm.symm.eq_nil
    rw [h2]
  · have hne2 : L2 ≠ [] := by
      intro h2
      rw [h2] at hperm
      exact hne hperm.eq_nil
    have hcompat2 : L2.Pairwise Compatible :=
      hcompat.perm hperm fun hxy => hxy.swap
    have hmin2 : ∀ l ∈ L2, l.m_min_writes ≤ 8 := fun l hl =>
      hmin l (hperm.mem_iff.mpr hl)
    have hlen2 : L2.length ≤ 9 := hperm.length_eq ▸ hlen
    unfold processAll
    rw [mergeSeq_fresh L1 hne hlen hmin hcompat,
      mergeSeq_fresh L2 hne2 hlen2 hmin2 hcompat2]
    exact canonicalRecord_perm hperm

theorem merge_outcome_permutation_invariant_witness :
    processAll freshRecord [writeIntent 1, writeIntent 2] =
      processAll freshRecord [writeIntent 2, writeIntent 1] :=
  merge_outcome_permutation_invariant
    [writeIntent 1, writeIntent 2] [writeIntent 2, writeIntent 1]
    (List.Perm.swap (writeIntent 2) (writeIntent 1) [])
    (by decide) (by decide) (by decide)

/-- Intention of `write_lock(1)`: write key 1. -/
def intA : LockIntention := LockIntention.ofKeys [1] [1]

/-- Intention of `multilock({1, 2}, {})`: read keys 1 and 2. -/
def intB : LockIntention := LockIntention.ofKeys [1, 2] []

/-- C6 counterexample: `intA` (write 1) and `intB` (read 1 and 2) conflict,
so whichever arrives first is adopted and the other rejected; the two orders
leave different record states (different Bloom sets and `min_writes`), even
though neither difference concerns `num_requests` saturation. -/
theorem merge_outcome_order_dependent_counterexample :
    List.Perm [intA, intB] [intB, intA] ∧
    processAll freshRecord [intA, intB] ≠
      processAll freshRecord [intB, intA] := by
  constructor
  · exact List.Perm.swap intB intA []
  · decide

theorem mergeSeq_append (r : _LockRecord) (xs ys : List LockIntention) :
    mergeSeq r (xs ++ ys) =
      ((mergeSeq r xs).1 ++ (mergeSeq (mergeSeq r xs).2 ys).1,
        (mergeSeq (mergeSeq r xs).2 ys).2) := by
  induction xs generalizing r with
  | nil => simp [mergeSeq]
  | cons x xs ih => simp [mergeSeq, ih]

/-- C3 counterexample: nine single-key write requests with the pairwise
disjoint non-zero keys 1..9 are all accepted into one fresh record — the 9th
request returns true and joins the batch (raising `num_requests` to 9),
contradicting the claim that it is refused. -/
theorem ninth_write_request_joins_counterexample :
    (mergeSeq freshRecord
        ([1, 2, 3, 4, 5, 6, 7, 8, 9].map writeIntent)).1 =
      List.replicate 9 true ∧
    (mergeSeq freshRecord
        ([1, 2, 3, 4, 5, 6, 7, 8, 9].map writeIntent)).2.m_num_requests =
      9 := by
  constructor
  · decide
  · decide

/-- C3 amended: merging single-key write requests with pairwise disjoint
non-zero keys one by one into a fresh (`None`) record accepts the first nine
requests — the 9th joins and its acceptance promotes the record to
`Exclusive` — and rejects the 10th, so at most nine such requests are merged
into one record. -/
theorem write_batch_saturates_at_nine (ks : List Key)
    (h10 : ks.length = 10) (hnd : ks.Nodup) (h0 : ∀ k ∈ ks, k ≠ 0) :
    (mergeSeq freshRecord (ks.map writeIntent)).1 =
      List.replicate 9 true ++ [false] ∧
    (mergeSeq freshRecord (ks.map writeIntent)).2.m_record_type =
      RecordType.Exclusive := by
  have hne : ks ≠ [] := by
    intro h
    rw [h] at h10
    simp at h10
  have hsplit := List.dropLast_append_getLast hne
  have hAlen : ks.dropLast.length = 9 := by
    rw [List.length_dropLast, h10]
  have hAmem : ∀ k ∈ ks.dropLast, k ∈ ks := fun k hk =>
    (List.dropLast_sublist ks).subset hk
  have hAnodup : ks.dropLast.Nodup :=
    (List.dropLast_sublist ks).nodup hnd
  have hAne : ks.dropLast ≠ [] := by
    intro h
    rw [h] at hAlen
    simp at hAlen
  have hcompat : (ks.dropLast.map writeIntent).Pairwise Compatible := by
    rw [List.pairwise_map]
    exact hAnodup.imp_of_mem fun ha hb hab =>
      writeIntent_compat (h0 _ (hAmem _ ha)) (h0 _ (hAmem _ hb)) hab
  have hmin : ∀ l ∈ ks.dropLast.map writeIntent, l.m_min_writes ≤ 8 := by
    intro l hl
    rw [List.mem_map] at hl
    obtain ⟨k, hk, rfl⟩ := hl
    rw [writeIntent_eval k (h0 k (hAmem k hk))]
    exact show (1 : Nat) ≤ 8 by omega
  have hfreshA := mergeSeq_fresh (ks.dropLast.map writeIntent)
    (fun h => hAne (List.map_eq_nil_iff.mp h))
    (by simp only [List.length_map, hAlen]; omega) hmin hcompat
  have hexcl : (canonicalRecord (ks.dropLast.map writeIntent)).m_record_type
      = RecordType.Exclusive := by
    simp only [canonicalRecord, List.length_map, hAlen]
    rw [if_pos (by omega)]
  have hlast : (canonicalRecord
        (ks.dropLast.map writeIntent)).merge_lock_request (writeIntent
          (ks.getLast hne)) =
      (false, canonicalRecord (ks.dropLast.map writeIntent)) := by
    unfold _LockRecord.merge_lock_request
    rw [hexcl]
    simp
  have hmap : ks.map writeIntent =
      ks.dropLast.map writeIntent ++ [writeIntent (ks.getLast hne)] := by
    conv_lhs => rw [← hsplit]
    simp
  rw [hmap, mergeSeq_append, hfreshA]
  simp only [mergeSeq, hlast, List.length_map, hAlen]
  exact ⟨trivial, hexcl⟩

theorem write_batch_saturates_at_nine_witness :
    (mergeSeq freshRecord
        ([1, 2, 3, 4, 5, 6, 7, 8, 9, 10].map writeIntent)).1 =
      List.replicate 9 true ++ [false] ∧
    (mergeSeq freshRecord
        ([1, 2, 3, 4, 5, 6, 7, 8, 9, 10].map writeIntent)).2.m_record_type =
      RecordType.Exclusive :=
  write_batch_saturates_at_nine [1, 2, 3, 4, 5, 6, 7, 8, 9, 10]
    (by decide) (by decide) (by decide)

/-!
## C8: the drain handoff performed by `unlock`
-/

/-- C8: when the calling thread drains the active batch (`release()` hits
zero, i.e. `pending = 1` before the call), `unlock` clears the drained
record and nulls the active-record pointer; then, if the queue front's
`record_type` is not `None`, it pops the front, makes it the active record
and activates it (latch raised, `pending` loaded from `num_requests`);
finally the drained record is pushed back as the queue's fresh sentinel if
the queue is then empty, and otherwise returned to the record pool. -/
theorem unlock_drain_handoff (s : BFLState) (r front : _LockRecord)
    (rest : List _LockRecord) (hA : s.m_active_lock_record = some r)
    (hP : r.m_pending = 1) (hQ : s.m_lock_queue = front :: rest) :
    (front.m_record_type ≠ RecordType.None →
      s.unlock =
        { m_lock_queue := if rest.isEmpty then [r.clear] else rest
          m_record_pool :=
            if rest.isEmpty then s.m_record_pool
            else r.clear :: s.m_record_pool
          m_active_lock_record := some front.activate }) ∧
    (front.m_record_type = RecordType.None →
      s.unlock =
        { m_lock_queue := front :: rest
          m_record_pool := r.clear :: s.m_record_pool
          m_active_lock_record := none }) := by
  rcases s with ⟨q, pool, act⟩
  simp only at hA hQ
  subst hA
  subst hQ
  have hrel : r.release = (true, { r with m_pending := 0 }) := by
    simp [_LockRecord.release, hP]
  constructor
  · intro hf
    rcases rest with _ | ⟨a, as⟩ <;>
      simp [BFLState.unlock, hrel, hf, _LockRecord.record_type,
        _LockRecord.clear]
  · intro hf
    simp [BFLState.unlock, hrel, hf, _LockRecord.record_type,
      _LockRecord.clear]

/-- A committed read-write batch waiting at the queue front. -/
def queuedRW : _LockRecord :=
  { freshRecord with
    m_record_type := RecordType.ReadWrite
    m_num_requests := 1
    m_lock_intention := LockIntention.ofKeys [1] [1] }

/-- The active record of a batch whose last holder is about to unlock. -/
def pendingOne : _LockRecord :=
  { freshRecord with
    m_record_type := RecordType.ReadWrite
    m_num_requests := 1
    m_lock_intention := LockIntention.ofKeys [2] [2]
    m_active := true
    m_pending := 1 }

theorem unlock_drain_handoff_witness :
    BFLState.unlock
        { m_lock_queue := [queuedRW]
          m_record_pool := []
          m_active_lock_record := some pendingOne } =
      { m_lock_queue := [pendingOne.clear]
        m_record_pool := []
        m_active_lock_record := some queuedRW.activate } := by
  have h := (unlock_drain_handoff
    { m_lock_queue := [queuedRW]
      m_record_pool := []
      m_active_lock_record := some pendingOne }
    pendingOne queuedRW [] rfl rfl rfl).1 (by decide)
  simpa using h
